import Mathlib

/-!
# Verification of the Clipboard entry store

A shallow embedding of `src/cb/src/clipboard.cpp` (The Clipboard Project):
the per-clipboard on-disk entry store with its entry index, advisory lock,
content filters and retention engine.  Filenames and file contents are
modelled as `List Char`/`String`, the entry index as a `List Nat` (front =
newest, mirroring the `std::deque<unsigned long>`), and the relevant parts
of the filesystem state as explicit record fields.  Machine integers are
`Nat` with explicit `% 2^64` where wrap-around matters.
-/

namespace Cb

/-- The constant `2^64`, the modulus of `unsigned long`/`unsigned long long`/`size_t` on
the LP64 platforms the UNIX branch of the source targets. -/
def u64 : Nat := 2 ^ 64

/-! ## Character-level models of the C/C++ parsing primitives -/

/-- Model of `isdigit` in the C locale: `'0'..'9'` (code points 48..57). -/
def isDigitChar (c : Char) : Bool := 48 ≤ c.toNat && c.toNat ≤ 57

/-- Model of `isspace` in the C locale: space (32) or `\t \n \v \f \r` (9..13). -/
def isSpaceChar (c : Char) : Bool := c.toNat == 32 || (9 ≤ c.toNat && c.toNat ≤ 13)

/-- Model of `::tolower` in the C locale: maps `'A'..'Z'` (65..90) down by 32,
leaves every other character unchanged. -/
def toLowerChar (c : Char) : Char :=
  if 65 ≤ c.toNat ∧ c.toNat ≤ 90 then Char.ofNat (c.toNat + 32) else c

/-- Value of a run of decimal digit characters (most significant first). -/
def digitsVal (ds : List Char) : Nat := ds.foldl (fun a c => a * 10 + (c.toNat - 48)) 0

/-- Model of `std::stoul` (64-bit `unsigned long` on LP64): skip leading
whitespace, accept one optional sign, then require a non-empty run of decimal
digits (further characters are ignored).  `none` models a thrown
`std::invalid_argument` (no digits) or `std::out_of_range` (digit value
≥ 2^64); a leading minus negates the value modulo 2^64, as `strtoul` does.
`signSplit` consumes the single optional sign. -/
def signSplit : List Char → Bool × List Char
  | '-' :: r => (true, r)
  | '+' :: r => (false, r)
  | r => (false, r)

def stoulModel (s : List Char) : Option Nat :=
  let p := signSplit (s.dropWhile isSpaceChar)
  let ds := p.2.takeWhile isDigitChar
  if ds.isEmpty then none
  else
    let v := digitsVal ds
    if v < u64 then some (if p.1 then (u64 - v) % u64 else v) else none

/-- Model of `std::stoull`; `unsigned long long` is also 64 bits wide, so the
function coincides with `stoulModel`. -/
def stoullModel (s : List Char) : Option Nat := stoulModel s

/-- Model of `std::stoi`: like `stoulModel` but signed, with the 32-bit `int`
range; `none` models a thrown `std::invalid_argument` or `std::out_of_range`. -/
def stoiModel (s : List Char) : Option Int :=
  let p := signSplit (s.dropWhile isSpaceChar)
  let ds := p.2.takeWhile isDigitChar
  if ds.isEmpty then none
  else
    let v : Int := if p.1 then -(digitsVal ds : Int) else (digitsVal ds : Int)
    if -(2 ^ 31) ≤ v ∧ v < 2 ^ 31 then some v else none

/-- Model of `std::from_chars` into an `unsigned long`: no whitespace, no
sign; the conversion succeeds iff the name begins with a decimal digit and the
maximal digit prefix fits in 64 bits, and the value is that prefix's value
(trailing non-digit characters are left unconsumed and do not make `ec`
signal an error — `clipboard.cpp` lines 68–71 check only `ec`). -/
def fromCharsULong (name : List Char) : Option Nat :=
  match name with
  | [] => none
  | c :: _ =>
    if isDigitChar c then
      let v := digitsVal (name.takeWhile isDigitChar)
      if v < u64 then some v else none
    else none

/-! ## Entry index (`Clipboard::generatedEntryIndex`, lines 60–84)

The UNIX branch walks the data directory with `readdir`, keeps every child
name whose `from_chars` conversion succeeds, inserts `0` if nothing was kept,
and sorts descending with `std::sort(…, std::greater<>())`.  A descending
sorted permutation of a list of naturals is unique, so any correct sort
models `std::sort`; we use Mathlib's structurally-recursive insertion sort
to keep the definition computable. -/

/-- The generated entry index, as a function of the sequence of child names
returned by `readdir` (which includes `"."` and `".."`; both fail to parse
and are skipped like any other non-numeric name). -/
def generatedEntryIndex (names : List (List Char)) : List Nat :=
  List.insertionSort (· ≥ ·)
    (if (names.filterMap fromCharsULong).isEmpty then [0]
     else names.filterMap fromCharsULong)

/-- How a fatal path in the source ends the process. -/
inductive Fatal where
  /-- `catch (...)` branch: `stopIndicator()`, an error message naming the
  offending ordinal is printed, `exit(EXIT_FAILURE)`. -/
  | userError (ordinal : Nat)
  /-- an exception propagates out of a function with no handler
  (`std::terminate`): no indicator stop, no help message. -/
  | uncaught
  deriving DecidableEq

/-- The constructor (`Clipboard::Clipboard`, lines 20–40) resolves
`entryIndex.at(this_entry)`; `deque::at` throws on an out-of-range position
and the surrounding `try`/`catch (...)` turns that into the fatal
NoSuchEntry user error naming `this_entry`.  The result is the ordinal the
current data directory is named after. -/
def clipboardOpenData (names : List (List Char)) (thisEntry : Nat) : Except Fatal Nat :=
  match (generatedEntryIndex names).get? thisEntry with
  | some o => .ok o
  | none => .error (.userError thisEntry)

/-! ## Index operations (`makeNewEntry`, `setEntry`, `entryPathFor`) -/

/-- Model of `Clipboard::makeNewEntry` (lines 185–192): prepend `front() + 1` to the
index, then re-resolve `entryIndex.at(this_entry)` for the data path.
`entryIndex` is a `std::deque<unsigned long>`, so `front() + 1` wraps modulo
2^64 (at a front of 2^64 − 1 the new ordinal is 0).
`deque::front()` on an empty deque is undefined behaviour and `deque::at`
throws out of range — both modelled as `none` (neither is reachable from a
well-formed clipboard, whose index is non-empty and whose `this_entry` was
validated by the constructor).  Returns the new index. -/
def makeNewEntry (index : List Nat) (thisEntry : Nat) : Option (List Nat) :=
  match index with
  | [] => none
  | f :: rest =>
    let index := ((f + 1) % u64) :: f :: rest
    if thisEntry < index.length then some index else none

/-- Iterate `k` successive calls to `makeNewEntry` with an unchanged `this_entry`. -/
def iterNewEntries : Nat → List Nat → Nat → Option (List Nat)
  | 0, index, _ => some index
  | k + 1, index, te => (makeNewEntry index te).bind fun index1 => iterNewEntries k index1 te

/-- Model of `Clipboard::setEntry` (lines 194–198): set `this_entry := entry` and
re-resolve `entryIndex.at(this_entry)`.  There is no `try`/`catch` in this
function, so an out-of-range position makes `deque::at`'s `std::out_of_range`
propagate out uncaught (`Fatal.uncaught`).  Returns the ordinal the data
path now points at. -/
def setEntry (index : List Nat) (entry : Nat) : Except Fatal Nat :=
  match index.get? entry with
  | some o => .ok o
  | none => .error .uncaught

/-- Model of `Clipboard::entryPathFor` (lines 200–212): resolve `entryIndex.at(entry)`;
the surrounding `try`/`catch (...)` turns an out-of-range position into the
fatal NoSuchEntry user error naming `entry`.  Returns the entry's ordinal
(standing for the path `root/data/<ordinal>`). -/
def entryPathFor (index : List Nat) (entry : Nat) : Except Fatal Nat :=
  match index.get? entry with
  | some o => .ok o
  | none => .error (.userError entry)

/-! ## Lock manager (`Clipboard::getLock`, lines 164–183) -/

/-- Outcome of one `getLock` call against a fixed snapshot of the world
(lock-file content, process-group test, liveness test).  The polling loop
re-reads only liveness and the lock file; against a fixed snapshot it either
exits on its first test or spins, which we record as `waitsForHolder`. -/
inductive LockOutcome where
  /-- control reaches line 182: the current PID is written to the lock file. -/
  | writesOwnPid
  /-- the self-bypass `return` on line 168: same process group, nothing written. -/
  | selfBypass
  /-- an exception propagates out of `getLock` uncaught; the PID is never
  written and the process terminates. -/
  | crashes
  /-- the holder is alive and the lock stays: the 100 ms sleep/poll loop
  continues (until, in reality, the holder dies or drops the lock). -/
  | waitsForHolder
  deriving DecidableEq

/-- Modelled from the spec: `isLocked()` is declared in `clipboard.hpp`
(not under `src/`); per §4.3 the lock is taken to be held iff the lock file
exists and is non-empty.  `lockContent = none` models a missing file. -/
def isLocked (lockContent : Option (List Char)) : Bool :=
  match lockContent with
  | none => false
  | some c => !c.isEmpty

/-- Model of `Clipboard::getLock`: if locked, the content is parsed with an unguarded
`std::stoi` (line 166) — a throw there propagates out of `getLock`.  On a
parsed PID the UNIX branch returns when the process groups coincide
(`sameGroup`), then polls `kill(pid, 0)` (`alive`) and `isLocked()` until one
of them fails, and finally writes its own PID.  `sameGroup`/`alive` are the
oracles for the two process probes on this snapshot. -/
def getLock (sameGroup : Int → Bool) (alive : Int → Bool)
    (lockContent : Option (List Char)) : LockOutcome :=
  if isLocked lockContent then
    match stoiModel (lockContent.getD []) with
    | none => .crashes
    | some pid =>
      if sameGroup pid then .selfBypass
      else if alive pid then .waitsForHolder
      else .writesOwnPid
  else .writesOwnPid

/-! ## Content filter (`Clipboard::applyIgnoreRules`, lines 125–155)

The filter is parametric in the two external engines the source calls into:
`std::regex` (via `rep r c`, modelling `std::regex_replace(c, r, "")`, and
`rmatch r s`, modelling `std::regex_match(s, r)`) and OpenSSL's `SHA512`
(via `sha c`, modelling the lowercase-hex digest string built on lines
143–148).  `α` is the type of compiled regexes.

The current entry's relevant on-disk state is `raw` (`none` = the data file
is missing — `fs::is_empty` errors and `holdsRawDataInCurrentEntry` returns
`false`) and the list of the entry directory's other children's names.  The
gates `holdsIgnoreRegexes`/`holdsIgnoreSecrets` (file exists and non-empty)
together with `fileLines` (a helper declared in `clipboard.hpp`; modelled
from the spec: "each line of the respective file") are represented by the
pattern/secret line lists, the gate passing iff the list is non-empty. -/

/-- Model of `Clipboard::holdsRawDataInCurrentEntry` (lines 86–91): true iff the raw
data file exists and is non-empty. -/
def holdsRawData (raw : Option String) : Bool :=
  match raw with
  | none => false
  | some s => !s.isEmpty

/-- The raw-data state of the current entry (`data.raw`) and the names of
the entry directory's other children. -/
structure EntryData where
  raw : Option String
  children : List String
  deriving DecidableEq

/-- The loop on lines 130–131: `content = std::regex_replace(content, regex, "")`
for each pattern in file order — a left-to-right pass threading the content. -/
def regexReplaceLoop (rep : α → String → String) : List α → String → String
  | [], c => c
  | r :: rs, c => regexReplaceLoop rep rs (rep r c)

/-- The loops on lines 134–136: for each pattern, remove every child whose
whole name matches it (`std::regex_match` + `fs::remove_all`). -/
def removeMatchingChildren (rmatch : α → String → Bool) : List α → List String → List String
  | [], cs => cs
  | r :: rs, cs => removeMatchingChildren rmatch rs (cs.filter fun c => !rmatch r c)

/-- The regex block, lines 126–137: with at least one pattern, a raw-holding
entry gets the substitution loop's result written back to `raw`; otherwise
matching children are removed recursively. -/
def regexPass (rep : α → String → String) (rmatch : α → String → Bool)
    (regexes : List α) (d : EntryData) : EntryData :=
  if regexes.isEmpty then d
  else if holdsRawData d.raw then
    { d with raw := some (regexReplaceLoop rep regexes (d.raw.getD "")) }
  else
    { d with children := removeMatchingChildren rmatch regexes d.children }

/-- The loop on lines 144–153: the digest of the (unchanged) content is
recomputed per secret; on the first equal secret the raw file is truncated
to `""` and the loop breaks. -/
def secretLoop (sha : String → String) : List String → String → String
  | [], c => c
  | s :: rest, c => if sha c = s then "" else secretLoop sha rest c

/-- The secret block, lines 139–154: with at least one secret line, the pass
returns early (entry unchanged) when the entry does not hold raw data —
note this re-tests the file the regex pass may just have rewritten —
otherwise the truncate-on-match loop runs over the secrets. -/
def secretPass (sha : String → String) (secrets : List String) (d : EntryData) : EntryData :=
  if secrets.isEmpty then d
  else if holdsRawData d.raw then
    { d with raw := some (secretLoop sha secrets (d.raw.getD "")) }
  else d

/-- Model of `Clipboard::applyIgnoreRules`: the regex block followed by the secret
block. -/
def applyIgnoreRules (rep : α → String → String) (rmatch : α → String → Bool)
    (sha : String → String) (regexes : List α) (secrets : List String)
    (d : EntryData) : EntryData :=
  secretPass sha secrets (regexPass rep rmatch regexes d)

/-! ## Retention engine (`Clipboard::trimHistoryEntries`, lines 220–296)

### Token parsing (lines 226–255)

Each whitespace-separated token is classified by
`std::string lastTwoChars(setting.end() - 2, setting.end())`.  The iterator
distance is always 2, so for tokens shorter than two characters the
constructor reads bytes from before the token's buffer — an out-of-bounds
read whose values we model as unconstrained parameters `g1 g2` (for a
1-character token the bytes read are `[g1, token.head]`; for an empty token
`[g1, g2]`).  Theorems about short tokens quantify over the garbage, so they
hold for every resolution of the undefined behaviour.

The size suffixes `tb/gb/mb/kb` and the age suffixes `y/m/w/d/h` scale a
`std::stold` of the token by a constant in `long double` and truncate to an
integer; `stoldTimes t scale` is the oracle abstracting that computation
(`none` = `stold` threw, so the token is skipped by the `catch`).  The
branches for a bare `b` suffix, an `s` suffix and the plain-integer default
use the integer parses `std::stoull`/`std::stoul`, modelled exactly. -/

/-- The three budgets accumulated by the parsing loop; all start at 0
(`0` = unconstrained: each eviction pass is guarded by `> 0`). -/
structure Budgets where
  maxBytes : Nat
  maxSeconds : Nat
  maxEntries : Nat
  deriving DecidableEq

/-- The string `lastTwoChars` before `::tolower`: the two bytes at `end()-2`/`end()-1`,
with out-of-buffer bytes modelled by `g1 g2`. -/
def lastTwoChars (g1 g2 : Char) (t : List Char) : List Char :=
  if 2 ≤ t.length then t.drop (t.length - 2)
  else if t.length = 1 then g1 :: t
  else [g1, g2]

/-- The branch chain of the parsing loop, lines 230–253, applied to the
lowercased `lastTwoChars` of the token (`c0` = `lastTwoChars.at(0)`,
`c1` = `lastTwoChars.at(1)`): classify the token and overwrite the
corresponding budget; any failed numeric parse (`none`) is swallowed by the
`catch (...)` leaving the budgets unchanged. -/
def parseTokenAux (stoldTimes : List Char → Nat → Option Nat)
    (t : List Char) (b : Budgets) (c0 c1 : Char) : Budgets :=
  if c0 = 't' ∧ c1 = 'b' then
      match stoldTimes t (1024 * 1024 * 1024 * 1024) with
      | some v => { b with maxBytes := v }
      | none => b
    else if c0 = 'g' ∧ c1 = 'b' then
      match stoldTimes t (1024 * 1024 * 1024) with
      | some v => { b with maxBytes := v }
      | none => b
    else if c0 = 'm' ∧ c1 = 'b' then
      match stoldTimes t (1024 * 1024) with
      | some v => { b with maxBytes := v }
      | none => b
    else if c0 = 'k' ∧ c1 = 'b' then
      match stoldTimes t 1024 with
      | some v => { b with maxBytes := v }
      | none => b
    else if c1 = 'b' then
      match stoullModel t with
      | some v => { b with maxBytes := v }
      | none => b
    else if c1 = 'y' then
      match stoldTimes t (60 * 60 * 24 * 365) with
      | some v => { b with maxSeconds := v }
      | none => b
    else if c1 = 'm' then
      match stoldTimes t (60 * 60 * 24 * 30) with
      | some v => { b with maxSeconds := v }
      | none => b
    else if c1 = 'w' then
      match stoldTimes t (60 * 60 * 24 * 7) with
      | some v => { b with maxSeconds := v }
      | none => b
    else if c1 = 'd' then
      match stoldTimes t (60 * 60 * 24) with
      | some v => { b with maxSeconds := v }
      | none => b
    else if c1 = 'h' then
      match stoldTimes t (60 * 60) with
      | some v => { b with maxSeconds := v }
      | none => b
    else if c1 = 's' then
      match stoulModel t with
      | some v => { b with maxSeconds := v }
      | none => b
    else
      match stoulModel t with
      | some v => { b with maxEntries := v }
      | none => b

/-- One iteration of the parsing loop, lines 227–254: build `lastTwoChars`,
lowercase it, and run the branch chain.  `lastTwoChars` always has exactly
two characters, so the wildcard is unreachable. -/
def parseToken (stoldTimes : List Char → Nat → Option Nat) (g1 g2 : Char)
    (b : Budgets) (t : List Char) : Budgets :=
  match (lastTwoChars g1 g2 t).map toLowerChar with
  | [c0, c1] => parseTokenAux stoldTimes t b c0 c1
  | _ => b

/-- The whole parsing loop over the whitespace-split retention string
(`regexSplit(maximumHistorySize, std::regex("\\s+"))`). -/
def parseRetention (stoldTimes : List Char → Nat → Option Nat) (g1 g2 : Char)
    (tokens : List (List Char)) : Budgets :=
  tokens.foldl (parseToken stoldTimes g1 g2) ⟨0, 0, 0⟩

/-- A concrete admissible instantiation of the `stoldTimes` oracle, exact for
the tokens whose numeric part is a plain integer (an integer below 2^64 and
the 1024-power/seconds scales are represented exactly in `long double`, and
the product truncates to itself): `stold`'s decimal prefix parse restricted
to integers, times the scale.  Used to instantiate witnesses. -/
def stoldTimesInt (t : List Char) (scale : Nat) : Option Nat :=
  (stoulModel t).map (· * scale)

/-! ### Eviction (lines 261–295)

On-disk state: the index-aligned list of entries, each with the recursive
size of its directory and its `stat` mtime, plus `metaSize`, the bytes under
`root` that belong to no indexed entry (the metadata subtree).
`totalDirectorySize(root)` (a helper declared in `clipboard.hpp`; modelled
from the spec: "recursive size of root") is then `metaSize + Σ sizes`.

Each loop pops the back of the index via `entryPathFor(entryIndex.size()-1)`;
on an empty index `size() - 1` wraps and `entryPathFor` exits fatally — the
`none` outcome.  The loops walk the index from the back, so they are
implemented structurally on the *reversed* (oldest-first) index and the
results are reversed back. -/

/-- One indexed entry: its ordinal, the recursive size of its directory, and
its mtime (seconds; `Int` since `time_t` is signed). -/
structure Entry where
  ord : Nat
  size : Nat
  mtime : Int
  deriving DecidableEq

/-- The per-clipboard on-disk state the retention engine touches. -/
structure ClipState where
  /-- indexed entries, newest first (aligned with `entryIndex`). -/
  entries : List Entry
  /-- bytes under `root` outside the indexed entry directories. -/
  metaSize : Nat
  deriving DecidableEq

/-- Model of `totalDirectorySize(root)`: the recursive size of the clipboard root. -/
def totalSize (st : ClipState) : Nat := st.metaSize + (st.entries.map Entry.size).sum

/-- Wrapping `size_t` subtraction modulo 2^64 (line 269,
`startingClipboardSize -= oldestEntrySize`). -/
def sub64 (a b : Nat) : Nat := (a + (u64 - b % u64)) % u64

/-- The size-budget loop, lines 264–270, on the reversed (oldest-first)
index: while the running size exceeds the budget, remove the oldest entry
and subtract its recursive size; popping an empty index is the fatal
`entryPathFor` exit (`none`). -/
def sizeLoopRev (maxBytes : Nat) : Nat → List Entry → Option (Nat × List Entry)
  | total, rev =>
    if total ≤ maxBytes then some (total, rev)
    else
      match rev with
      | [] => none
      | e :: older => sizeLoopRev maxBytes (sub64 total e.size) older

/-- The age-budget loop, lines 282–285, on the reversed index: the loop
condition itself calls `entryPathFor(entryIndex.size()-1)`, so it is fatal
(`none`) already when the index is empty on entry; otherwise it pops while
the oldest entry's mtime is older than the cutoff.  (`lastModified` returns
`now` when `stat` fails, stopping the loop; the model gives every entry a
readable mtime.) -/
def ageLoopRev (cutoff : Int) : List Entry → Option (List Entry)
  | [] => none
  | e :: older => if e.mtime < cutoff then ageLoopRev cutoff older else some (e :: older)

/-- The count-budget loop, lines 290–294, on the reversed index: pop while
more than `maxEntries` entries remain (the early `return` on line 290 is the
loop's first test). -/
def countLoopRev (maxEntries : Nat) : List Entry → List Entry
  | [] => []
  | e :: older =>
    if (e :: older).length ≤ maxEntries then e :: older else countLoopRev maxEntries older

/-- The size-budget block, lines 261–271 (`if (maximumBytes > 0)`). -/
def sizePass (maxBytes : Nat) (st : ClipState) : Option ClipState :=
  if 0 < maxBytes then
    (sizeLoopRev maxBytes (totalSize st) st.entries.reverse).map
      fun p => { st with entries := p.2.reverse }
  else some st

/-- The age-budget block, lines 273–287 (`if (maximumSeconds > 0)`). -/
def agePass (maxSeconds : Nat) (now : Int) (st : ClipState) : Option ClipState :=
  if 0 < maxSeconds then
    (ageLoopRev (now - (maxSeconds : Int)) st.entries.reverse).map
      fun r => { st with entries := r.reverse }
  else some st

/-- The count-budget block, lines 289–295 (`if (maximumEntries > 0)`; the
inner `maximumEntries == 0` test on line 290 is dead under the outer guard). -/
def countPass (maxEntries : Nat) (st : ClipState) : Option ClipState :=
  if 0 < maxEntries then
    some { st with entries := (countLoopRev maxEntries st.entries.reverse).reverse }
  else some st

/-- Model of `Clipboard::trimHistoryEntries`: parse the retention tokens, then run the
three eviction blocks in order.  `none` = the process exited fatally inside a
block.  An empty retention string returns at line 221 before parsing; that
early return leaves the state unchanged, exactly as the zero budgets parsed
from no tokens do, so it needs no extra case. -/
def trimHistoryEntries (stoldTimes : List Char → Nat → Option Nat) (g1 g2 : Char)
    (tokens : List (List Char)) (now : Int) (st : ClipState) : Option ClipState :=
  let b := parseRetention stoldTimes g1 g2 tokens
  (sizePass b.maxBytes st).bind fun st1 =>
    (agePass b.maxSeconds now st1).bind fun st2 =>
      countPass b.maxEntries st2

/-! ## Helper lemmas -/

/-- Sorting a non-empty list gives a non-empty list. -/
theorem insertionSort_ne_nil {r : Nat → Nat → Prop} [DecidableRel r] {l : List Nat}
    (h : l ≠ []) : List.insertionSort r l ≠ [] := by
  intro hnil
  have hp := (List.perm_insertionSort r l).length_eq
  rw [hnil] at hp
  simp only [List.length_nil] at hp
  exact h (List.length_eq_zero.mp hp.symm)

/-- The generated entry index is never empty: either some name parsed, or
`0` was inserted, and sorting preserves length. -/
theorem generatedEntryIndex_ne_nil (names : List (List Char)) :
    generatedEntryIndex names ≠ [] := by
  unfold generatedEntryIndex
  apply insertionSort_ne_nil
  split
  · simp
  · next hne => exact fun hc => hne (by rw [hc]; rfl)

/-- The break-on-first-match loop of the secret pass truncates exactly when
some listed secret equals the digest of the (loop-invariant) content. -/
theorem secretLoop_eq (sha : String → String) (secrets : List String) (c : String) :
    secretLoop sha secrets c = if sha c ∈ secrets then "" else c := by
  induction secrets with
  | nil => simp [secretLoop]
  | cons s rest ih =>
    by_cases h : sha c = s
    · simp [secretLoop, h]
    · simp only [secretLoop, if_neg h, ih, List.mem_cons]
      by_cases hm : sha c ∈ rest
      · simp [hm, h]
      · simp [hm, h]

theorem sizeLoopRev_suffix {maxBytes : Nat} :
    ∀ {total rev out}, sizeLoopRev maxBytes total rev = some out → out.2 <:+ rev := by
  intro total rev
  induction rev generalizing total with
  | nil =>
    intro out h
    unfold sizeLoopRev at h
    split at h
    · cases h; exact List.nil_suffix
    · cases h
  | cons e older ih =>
    intro out h
    unfold sizeLoopRev at h
    split at h
    · cases h; exact List.suffix_refl _
    · exact (ih h).trans (List.suffix_cons e older)

theorem sizeLoopRev_invariant {maxBytes meta : Nat} :
    ∀ {total rev t rev'}, total = meta + (rev.map Entry.size).sum → total < u64 →
      sizeLoopRev maxBytes total rev = some (t, rev') →
      t = meta + (rev'.map Entry.size).sum ∧ t ≤ maxBytes := by
  intro total rev
  induction rev generalizing total with
  | nil =>
    intro t rev' hinv hlt h
    unfold sizeLoopRev at h
    split at h
    · cases h; exact ⟨hinv, by assumption⟩
    · cases h
  | cons e older ih =>
    intro t rev' hinv hlt h
    unfold sizeLoopRev at h
    split at h
    · cases h; exact ⟨hinv, by assumption⟩
    · have hsum : total = meta + (e.size + ((older.map Entry.size).sum)) := by
        simpa using hinv
      have hsub : sub64 total e.size = meta + (older.map Entry.size).sum := by
        have hlt2 : total < 2 ^ 64 := hlt
        show (total + (2 ^ 64 - e.size % 2 ^ 64)) % 2 ^ 64 = meta + (older.map Entry.size).sum
        omega
      exact ih hsub (by omega) h

theorem ageLoopRev_suffix {cutoff : Int} :
    ∀ {rev rev'}, ageLoopRev cutoff rev = some rev' → rev' <:+ rev := by
  intro rev
  induction rev with
  | nil => intro rev' h; cases h
  | cons e older ih =>
    intro rev' h
    unfold ageLoopRev at h
    split at h
    · exact (ih h).trans (List.suffix_cons e older)
    · cases h; exact List.suffix_refl _

theorem countLoopRev_suffix (maxEntries : Nat) :
    ∀ rev : List Entry, countLoopRev maxEntries rev <:+ rev := by
  intro rev
  induction rev with
  | nil => exact List.suffix_refl _
  | cons e older ih =>
    unfold countLoopRev
    split
    · exact List.suffix_refl _
    · exact ih.trans (List.suffix_cons e older)

theorem countLoopRev_length (maxEntries : Nat) :
    ∀ rev : List Entry, (countLoopRev maxEntries rev).length ≤ maxEntries := by
  intro rev
  induction rev with
  | nil => simp [countLoopRev]
  | cons e older ih =>
    unfold countLoopRev
    split
    · assumption
    · exact ih

theorem suffix_sizes_sum_le {l' l : List Entry} (h : l' <:+ l) :
    ((l'.map Entry.size).sum ≤ (l.map Entry.size).sum) := by
  obtain ⟨pre, rfl⟩ := h
  simp

/-- A suffix of a reversed list, reversed back, is a prefix. -/
theorem reverse_prefix_of_suffix_reverse {l' l : List Entry} (h : l' <:+ l.reverse) :
    l'.reverse <+: l := by
  have h2 : (l'.reverse).reverse <:+ l.reverse := by simpa using h
  have h3 := List.reverse_suffix.mp h2
  simpa using h3

theorem totalSize_le_of_entries_prefix {st st' : ClipState}
    (hm : st'.metaSize = st.metaSize) (hp : st'.entries <+: st.entries) :
    totalSize st' ≤ totalSize st := by
  obtain ⟨post, hpost⟩ := hp
  unfold totalSize
  rw [hm, ← hpost]
  simp

theorem sizePass_some {maxBytes : Nat} {st st' : ClipState}
    (h : sizePass maxBytes st = some st') :
    st'.metaSize = st.metaSize ∧ st'.entries <+: st.entries := by
  unfold sizePass at h
  split at h
  · rw [Option.map_eq_some'] at h
    obtain ⟨p, hp, rfl⟩ := h
    exact ⟨rfl, reverse_prefix_of_suffix_reverse (sizeLoopRev_suffix hp)⟩
  · cases h; exact ⟨rfl, List.prefix_refl _⟩

theorem sizePass_bound {maxBytes : Nat} {st st' : ClipState} (hpos : 0 < maxBytes)
    (hu : totalSize st < u64) (h : sizePass maxBytes st = some st') :
    totalSize st' ≤ maxBytes := by
  unfold sizePass at h
  rw [if_pos hpos, Option.map_eq_some'] at h
  obtain ⟨p, hp, rfl⟩ := h
  have hinv : totalSize st = st.metaSize + ((st.entries.reverse.map Entry.size).sum) := by
    unfold totalSize
    simp [List.sum_reverse]
  obtain ⟨ht, hle⟩ := sizeLoopRev_invariant hinv hu hp
  have : totalSize { st with entries := p.2.reverse } =
      st.metaSize + ((p.2.map Entry.size).sum) := by
    unfold totalSize
    simp [List.sum_reverse]
  omega

theorem agePass_some {maxSeconds : Nat} {now : Int} {st st' : ClipState}
    (h : agePass maxSeconds now st = some st') :
    st'.metaSize = st.metaSize ∧ st'.entries <+: st.entries := by
  unfold agePass at h
  split at h
  · rw [Option.map_eq_some'] at h
    obtain ⟨r, hr, rfl⟩ := h
    exact ⟨rfl, reverse_prefix_of_suffix_reverse (ageLoopRev_suffix hr)⟩
  · cases h; exact ⟨rfl, List.prefix_refl _⟩

theorem countPass_some {maxEntries : Nat} {st st' : ClipState}
    (h : countPass maxEntries st = some st') :
    st'.metaSize = st.metaSize ∧ st'.entries <+: st.entries ∧
      (0 < maxEntries → st'.entries.length ≤ maxEntries) := by
  unfold countPass at h
  split at h
  · cases h
    refine ⟨rfl, reverse_prefix_of_suffix_reverse (countLoopRev_suffix _ _), fun _ => ?_⟩
    simpa using countLoopRev_length maxEntries st.entries.reverse
  · cases h
    exact ⟨rfl, List.prefix_refl _, fun hpos => absurd hpos (by assumption)⟩

/-- Decomposition of a normally-returning `trimHistoryEntries` run into its
three passes. -/
theorem trimHistoryEntries_some {stoldTimes : List Char → Nat → Option Nat}
    {g1 g2 : Char} {tokens : List (List Char)} {now : Int} {st st' : ClipState}
    (h : trimHistoryEntries stoldTimes g1 g2 tokens now st = some st') :
    ∃ st1 st2,
      sizePass (parseRetention stoldTimes g1 g2 tokens).maxBytes st = some st1 ∧
      agePass (parseRetention stoldTimes g1 g2 tokens).maxSeconds now st1 = some st2 ∧
      countPass (parseRetention stoldTimes g1 g2 tokens).maxEntries st2 = some st' := by
  unfold trimHistoryEntries at h
  rw [Option.bind_eq_some] at h
  obtain ⟨st1, h1, h⟩ := h
  rw [Option.bind_eq_some] at h
  obtain ⟨st2, h2, h⟩ := h
  exact ⟨st1, st2, h1, h2, h⟩

/-- A digit character's code point lies in 48..57. -/
theorem isDigitChar_bounds {c : Char} (h : isDigitChar c = true) :
    48 ≤ c.toNat ∧ c.toNat ≤ 57 := by
  simpa [isDigitChar] using h

/-- Lowercasing leaves digits unchanged. -/
theorem toLowerChar_digit {c : Char} (h : isDigitChar c = true) : toLowerChar c = c := by
  obtain ⟨h1, h2⟩ := isDigitChar_bounds h
  unfold toLowerChar
  rw [if_neg]
  omega

/-- A digit character is none of the unit-suffix letters. -/
theorem digit_ne_unit {c : Char} (h : isDigitChar c = true) :
    c ≠ 'b' ∧ c ≠ 'y' ∧ c ≠ 'm' ∧ c ≠ 'w' ∧ c ≠ 'd' ∧ c ≠ 'h' ∧ c ≠ 's' := by
  obtain ⟨h1, h2⟩ := isDigitChar_bounds h
  refine ⟨?_, ?_, ?_, ?_, ?_, ?_, ?_⟩ <;>
    (intro heq; subst heq; revert h2; decide)

/-- A digit character is not whitespace. -/
theorem isSpaceChar_digit {c : Char} (h : isDigitChar c = true) :
    isSpaceChar c = false := by
  obtain ⟨h1, h2⟩ := isDigitChar_bounds h
  rw [Bool.eq_false_iff]
  intro hs
  simp [isSpaceChar] at hs
  omega

theorem takeWhile_all {p : Char → Bool} :
    ∀ {l : List Char}, (∀ c ∈ l, p c = true) → l.takeWhile p = l := by
  intro l
  induction l with
  | nil => intro _; rfl
  | cons a rest ih =>
    intro h
    rw [List.takeWhile_cons, if_pos (h a (List.mem_cons_self a rest)),
      ih fun c hc => h c (List.mem_cons_of_mem a hc)]

/-- The sign step `signSplit` consumes nothing when the string starts with a digit. -/
theorem signSplit_digit {c : Char} (rest : List Char) (hc : isDigitChar c = true) :
    signSplit (c :: rest) = (false, c :: rest) := by
  obtain ⟨h1, h2⟩ := isDigitChar_bounds hc
  have hminus : c ≠ '-' := by intro heq; subst heq; revert h1; decide
  have hplus : c ≠ '+' := by intro heq; subst heq; revert h1; decide
  unfold signSplit
  split
  · next r heq => injection heq with hch _; exact absurd hch hminus
  · next r heq => injection heq with hch _; exact absurd hch hplus
  · rfl

/-- Parsing an all-digit token below 2^64 with `stoul` returns the token's value. -/
theorem stoulModel_digits {t : List Char} (hne : t ≠ [])
    (hd : ∀ c ∈ t, isDigitChar c = true) (hv : digitsVal t < u64) :
    stoulModel t = some (digitsVal t) := by
  rcases t with _ | ⟨c, rest⟩
  · exact absurd rfl hne
  have hc := hd c (List.mem_cons_self c rest)
  have hdw : List.dropWhile isSpaceChar (c :: rest) = c :: rest := by
    rw [List.dropWhile_cons, isSpaceChar_digit hc]
    simp
  simp only [stoulModel, hdw, signSplit_digit rest hc, takeWhile_all hd]
  simp only [List.isEmpty_cons, Bool.false_eq_true, if_false, if_pos hv]

/-- The list `lastTwoChars` always has exactly two characters, the second of which
comes from the token whenever the token is non-empty. -/
theorem lastTwoChars_two (g1 g2 : Char) {t : List Char} (h : t ≠ []) :
    ∃ c0 c1, lastTwoChars g1 g2 t = [c0, c1] ∧ c1 ∈ t := by
  rcases t with _ | ⟨a, rest⟩
  · exact absurd rfl h
  rcases rest with _ | ⟨b, rest2⟩
  · exact ⟨g1, a, by simp [lastTwoChars], List.mem_cons_self a []⟩
  · have hlen : 2 ≤ (a :: b :: rest2).length := by simp
    have hdl : ((a :: b :: rest2).drop ((a :: b :: rest2).length - 2)).length = 2 := by
      rw [List.length_drop]
      omega
    obtain ⟨c0, c1, hc⟩ := List.length_eq_two.mp hdl
    refine ⟨c0, c1, ?_, ?_⟩
    · simp only [lastTwoChars]
      rw [if_pos hlen, hc]
    · exact List.mem_of_mem_drop (hc ▸ (by simp : c1 ∈ [c0, c1]))

/-- On an all-digit token, every unit branch of the parser is skipped
(regardless of the out-of-bounds garbage in position 0 for 1-character
tokens) and the plain-integer default branch runs. -/
theorem parseToken_digits (stoldTimes : List Char → Nat → Option Nat)
    (g1 g2 : Char) (b : Budgets) {t : List Char} (hne : t ≠ [])
    (hd : ∀ c ∈ t, isDigitChar c = true) (hv : digitsVal t < u64) :
    parseToken stoldTimes g1 g2 b t = { b with maxEntries := digitsVal t } := by
  obtain ⟨c0, c1, hlt, hc1t⟩ := lastTwoChars_two g1 g2 hne
  have hc1 := hd c1 hc1t
  obtain ⟨hb, hy, hm, hw, hdd, hh, hs⟩ := digit_ne_unit hc1
  unfold parseToken
  rw [hlt]
  simp only [List.map_cons, List.map_nil, toLowerChar_digit hc1]
  show parseTokenAux stoldTimes t b (toLowerChar c0) c1 = _
  unfold parseTokenAux
  rw [if_neg fun hand => hb hand.2, if_neg fun hand => hb hand.2,
    if_neg fun hand => hb hand.2, if_neg fun hand => hb hand.2,
    if_neg hb, if_neg hy, if_neg hm, if_neg hw, if_neg hdd, if_neg hh, if_neg hs,
    stoulModel_digits hne hd hv]

set_option maxHeartbeats 1000000 in
/-- A token on which every numeric parse fails is skipped: the budgets are
left unchanged whatever branch is taken. -/
theorem parseToken_skip (stoldTimes : List Char → Nat → Option Nat)
    (g1 g2 : Char) (b : Budgets) {t : List Char}
    (hstoul : stoulModel t = none)
    (horacle : ∀ scale, stoldTimes t scale = none) :
    parseToken stoldTimes g1 g2 b t = b := by
  have haux : ∀ c0 c1, parseTokenAux stoldTimes t b c0 c1 = b := by
    intro c0 c1
    unfold parseTokenAux
    simp_all [horacle, stoullModel]
  unfold parseToken
  rcases hshape : (lastTwoChars g1 g2 t).map toLowerChar with _ | ⟨x, _ | ⟨y, _ | ⟨z, w⟩⟩⟩ <;>
    first | rfl | exact haux x y

/-- The secret block on a raw-holding entry writes `""` exactly when the
digest of the current raw content is listed. -/
theorem secretPass_raw_true {sha : String → String} {secrets : List String}
    {d : EntryData} (hs : secrets ≠ []) (hraw : holdsRawData d.raw = true) :
    secretPass sha secrets d =
      { d with raw := some (if sha (d.raw.getD "") ∈ secrets then ""
                            else d.raw.getD "") } := by
  have hse : secrets.isEmpty = false := by
    cases secrets with
    | nil => exact absurd rfl hs
    | cons a as => rfl
  simp only [secretPass, hse, Bool.false_eq_true, if_false, hraw, if_true,
    secretLoop_eq]

/-- The secret block leaves an entry without raw data untouched. -/
theorem secretPass_raw_false {sha : String → String} {secrets : List String}
    {d : EntryData} (hraw : holdsRawData d.raw = false) :
    secretPass sha secrets d = d := by
  unfold secretPass
  split
  · rfl
  · rw [hraw]
    simp

/-! ## Claims -/

section SortInstances

instance : IsTotal Nat (· ≥ ·) := ⟨fun a b => le_total b a⟩

instance : IsTrans Nat (· ≥ ·) := ⟨fun _ _ _ h1 h2 => le_trans h2 h1⟩

end SortInstances

/-- C1 (counterexample): the size-budget loop does not stop at one remaining
entry.  With retention token `"5b"` (`max_bytes = 5`), a clipboard whose only
indexed entry (ordinal 0) has recursive size 10 and whose metadata weighs 0
bytes is trimmed to an *empty* index: the engine removed the last remaining
index element, contradicting the claim's "only one entry remains … the
engine never removes the last remaining index element". -/
theorem trim_size_removes_last_entry_cex :
    trimHistoryEntries stoldTimesInt 'x' 'x' [['5', 'b']] 0 ⟨[⟨0, 10, 0⟩], 0⟩ =
        some ⟨[], 0⟩ ∧
      (ClipState.mk [⟨0, 10, 0⟩] 0).entries ≠ [] :=
  ⟨by decide, by decide⟩

/-- C1 (amended): for every retention string whose parsed size budget is
`max_bytes = B > 0`, if `trim_history_entries` returns normally (the process
does not exit fatally inside an eviction loop), the total recursive size of
the clipboard root afterwards is at most `B`.  The index may be left with
fewer than one element: the engine does remove the last remaining index
element when the budget demands it (the conceptual ordinal-0 entry is then
recreated by the index builder on next open). -/
theorem trim_size_budget_amended (stoldTimes : List Char → Nat → Option Nat)
    (g1 g2 : Char) (tokens : List (List Char)) (now : Int) (st st' : ClipState)
    (B : Nat) (hB : (parseRetention stoldTimes g1 g2 tokens).maxBytes = B)
    (hpos : 0 < B) (hu : totalSize st < u64)
    (htrim : trimHistoryEntries stoldTimes g1 g2 tokens now st = some st') :
    totalSize st' ≤ B := by
  obtain ⟨st1, st2, h1, h2, h3⟩ := trimHistoryEntries_some htrim
  rw [hB] at h1
  have hb1 := sizePass_bound hpos hu h1
  obtain ⟨hm2, hp2⟩ := agePass_some h2
  obtain ⟨hm3, hp3, _⟩ := countPass_some h3
  calc totalSize st' ≤ totalSize st2 := totalSize_le_of_entries_prefix hm3 hp3
    _ ≤ totalSize st1 := totalSize_le_of_entries_prefix hm2 hp2
    _ ≤ B := hb1

/-- C1 (witness for the amended theorem): retention `"9b"` on a clipboard of
total size 5 returns normally and the size stays within the budget. -/
theorem trim_size_budget_amended_witness :
    totalSize ⟨[⟨0, 5, 0⟩], 0⟩ ≤ 9 :=
  trim_size_budget_amended stoldTimesInt 'x' 'x' [['9', 'b']] 0 ⟨[⟨0, 5, 0⟩], 0⟩
    ⟨[⟨0, 5, 0⟩], 0⟩ 9 (by decide) (by decide) (by decide) (by decide)

/-- C2 (counterexample): the produced index is not the *set* of fully
parseable numeric names.  The distinct child names `"5"` and `"05"` both
parse to 5, so the index `[5, 5]` contains a duplicate and is not strictly
decreasing; and the name `"12a"`, which is not a decimal integer, still
contributes 12 because `from_chars` accepts a digit *prefix* and the code
checks only the error code, not whether the whole name was consumed. -/
theorem generatedEntryIndex_cex :
    generatedEntryIndex [['5'], ['0', '5']] = [5, 5] ∧ ¬ List.Nodup [5, 5] ∧
      generatedEntryIndex [['1', '2', 'a']] = [12] :=
  ⟨by decide, by decide, by decide⟩

/-- C2 (amended): for every directory contents, the produced index is sorted
descending (not necessarily strictly: distinct names parsing to the same
value yield duplicates), is never empty, and is a permutation of the
*multiset* of values parsed from maximal digit prefixes of the child names
that begin with a digit (values ≥ 2^64 are skipped, as are names with no
leading digit) — or of `[0]` when no name parses. -/
theorem generatedEntryIndex_amended (names : List (List Char)) :
    (generatedEntryIndex names).Sorted (· ≥ ·) ∧
      generatedEntryIndex names ≠ [] ∧
      (generatedEntryIndex names).Perm
        (if (names.filterMap fromCharsULong).isEmpty then [0]
         else names.filterMap fromCharsULong) := by
  refine ⟨?_, generatedEntryIndex_ne_nil names, ?_⟩
  · unfold generatedEntryIndex
    exact List.sorted_insertionSort _ _
  · unfold generatedEntryIndex
    exact List.perm_insertionSort _ _

/-- C3 (counterexample): `setEntry` on an out-of-range position does not
produce the NoSuchEntry fatal user error (stopped indicator, help message
naming the ordinal, `exit(EXIT_FAILURE)`): the function has no `try`/`catch`,
so `deque::at`'s exception propagates uncaught. -/
theorem setEntry_cex :
    setEntry [0] 1 = .error .uncaught ∧ Fatal.uncaught ≠ Fatal.userError 1 :=
  ⟨rfl, by decide⟩

/-- C3 (amended): for every index and every position `k` out of range,
`set_entry(k)` throws `std::out_of_range` from `entryIndex.at` and, having no
handler, terminates the process via `std::terminate` — without stopping the
indicator, printing the help message, or calling `exit`.  (The NoSuchEntry
user error of the claim is what `entry_path_for` and the constructor produce,
not `set_entry`.) -/
theorem setEntry_out_of_range (index : List Nat) (k : Nat) (h : index.length ≤ k) :
    setEntry index k = .error .uncaught := by
  unfold setEntry
  rw [List.get?_eq_none.mpr h]

/-- C3 (witness for the amended theorem). -/
theorem setEntry_out_of_range_witness : setEntry [3, 2] 5 = .error .uncaught :=
  setEntry_out_of_range [3, 2] 5 (by decide)

/-- C4 (counterexample): a lock file whose content `"abc"` is non-empty but
does not parse as a decimal PID makes `getLock` crash — `std::stoi` on
line 166 throws `std::invalid_argument` with no handler — instead of
treating the lock as stale and proceeding to write the current PID. -/
theorem getLock_cex :
    getLock (fun _ => false) (fun _ => false) (some ['a', 'b', 'c']) = .crashes ∧
      LockOutcome.crashes ≠ LockOutcome.writesOwnPid :=
  ⟨rfl, by decide⟩

/-- C4 (amended): for every lock-file content that exists, is non-empty and
does not parse as a decimal PID (`std::stoi` semantics: optional whitespace
and sign, then at least one digit, value within `int` range), `get_lock`
terminates with an uncaught exception; it never reaches the final write of
the current process's PID. -/
theorem getLock_malformed_crashes (sameGroup alive : Int → Bool)
    (c : List Char) (hne : c ≠ []) (hparse : stoiModel c = none) :
    getLock sameGroup alive (some c) = .crashes := by
  simp [getLock, isLocked, List.isEmpty_iff, hne, hparse]

/-- C4 (witness for the amended theorem). -/
theorem getLock_malformed_crashes_witness :
    getLock (fun _ => false) (fun _ => true) (some ['z']) = .crashes :=
  getLock_malformed_crashes _ _ ['z'] (by decide) (by decide)

/-- C5: with a non-empty `ignore_secret` list, `apply_ignore_rules` truncates
the raw file to empty iff the digest of its raw content (the content the
secret pass sees, i.e. after the regex block) equals a listed secret line,
leaves it unchanged otherwise, and does nothing at all in the secret pass
when the entry does not hold raw data.  The digest function (OpenSSL
`SHA512` plus the lowercase-hex rendering of lines 143–148) and the regex
engine are external to the repository and enter as the parameters `sha`,
`rep`, `rmatch`. -/
theorem applyIgnoreRules_secret_scrub {α : Type} (rep : α → String → String)
    (rmatch : α → String → Bool) (sha : String → String)
    (regexes : List α) (secrets : List String) (d : EntryData)
    (hs : secrets ≠ []) :
    (holdsRawData (regexPass rep rmatch regexes d).raw = true →
        (sha ((regexPass rep rmatch regexes d).raw.getD "") ∈ secrets →
          (applyIgnoreRules rep rmatch sha regexes secrets d).raw = some "") ∧
        (sha ((regexPass rep rmatch regexes d).raw.getD "") ∉ secrets →
          (applyIgnoreRules rep rmatch sha regexes secrets d).raw =
            (regexPass rep rmatch regexes d).raw)) ∧
      (holdsRawData (regexPass rep rmatch regexes d).raw = false →
        applyIgnoreRules rep rmatch sha regexes secrets d =
          regexPass rep rmatch regexes d) := by
  constructor
  · intro hraw
    have h1 := @secretPass_raw_true sha secrets (regexPass rep rmatch regexes d) hs hraw
    constructor
    · intro hmem
      show (secretPass sha secrets (regexPass rep rmatch regexes d)).raw = some ""
      rw [h1]
      simp [hmem]
    · intro hmem
      show (secretPass sha secrets (regexPass rep rmatch regexes d)).raw = _
      rw [h1]
      simp only [if_neg hmem]
      rcases hmr : (regexPass rep rmatch regexes d).raw with _ | s
      · rw [hmr] at hraw
        simp [holdsRawData] at hraw
      · simp
  · intro hraw
    exact secretPass_raw_false hraw

/-- C5 (witness): an entry whose raw content is `"x"`, no regex patterns, and
a secret list containing the digest of `"x"` (digest function abstracted as
appending `"!"`): the raw file is truncated. -/
theorem applyIgnoreRules_secret_scrub_witness :
    (applyIgnoreRules (fun (_ : Unit) c => c) (fun _ _ => false)
        (fun c => c ++ "!") [] ["x!"] ⟨some "x", []⟩).raw = some "" :=
  ((applyIgnoreRules_secret_scrub (fun (_ : Unit) c => c) (fun _ _ => false)
      (fun c => c ++ "!") [] ["x!"] ⟨some "x", []⟩ (by decide)).1
    (by decide)).1 (by decide)

/-- C6 (counterexample): with a non-empty `ignore_regex` file, the final raw
content is *not* always the left fold of replace-all over the patterns: if
the ignore-secret pass subsequently matches the folded content, the raw file
is truncated to empty instead.  Here the single pattern matches nothing
(`rep` is the identity, as `std::regex_replace` is for a pattern with no
match in `"x"`), the digest of every string is the abstract value `"D"`,
and `"D"` is listed in `ignore_secret`: the fold result is `"x"` but the
final raw content is `""`. -/
theorem applyIgnoreRules_regex_fold_cex :
    (applyIgnoreRules (fun (_ : Unit) c => c) (fun _ _ => false) (fun _ => "D")
        [()] ["D"] ⟨some "x", []⟩).raw = some "" ∧
      regexReplaceLoop (fun (_ : Unit) c => c) [()] "x" = "x" ∧
      ("" : String) ≠ "x" :=
  ⟨by decide, by decide, by decide⟩

/-- C6 (amended): for every raw-holding entry and non-empty pattern list,
after `apply_ignore_rules` the raw content is the sequential left fold of
replace-all over the patterns in file order — unless the secret pass then
fires (the fold result is non-empty and its digest is a listed secret), in
which case the raw content is empty. -/
theorem applyIgnoreRules_regex_fold_amended {α : Type} (rep : α → String → String)
    (rmatch : α → String → Bool) (sha : String → String)
    (regexes : List α) (secrets : List String) (d : EntryData)
    (hr : regexes ≠ []) (hraw : holdsRawData d.raw = true) :
    (applyIgnoreRules rep rmatch sha regexes secrets d).raw =
      some (if secrets ≠ [] ∧ regexReplaceLoop rep regexes (d.raw.getD "") ≠ "" ∧
                sha (regexReplaceLoop rep regexes (d.raw.getD "")) ∈ secrets
            then "" else regexReplaceLoop rep regexes (d.raw.getD "")) := by
  have hre : regexes.isEmpty = false := by
    cases regexes with
    | nil => exact absurd rfl hr
    | cons a as => rfl
  have hmid : regexPass rep rmatch regexes d =
      { d with raw := some (regexReplaceLoop rep regexes (d.raw.getD "")) } := by
    simp only [regexPass, hre, Bool.false_eq_true, if_false, hraw, if_true]
  show (secretPass sha secrets (regexPass rep rmatch regexes d)).raw = _
  rw [hmid]
  by_cases hsec : secrets = []
  · subst hsec
    rw [show ∀ d2 : EntryData, secretPass sha [] d2 = d2 from fun d2 => rfl]
    simp
  · by_cases hf : regexReplaceLoop rep regexes (d.raw.getD "") = ""
    · have hfr : holdsRawData
          ({ d with raw := some (regexReplaceLoop rep regexes (d.raw.getD "")) } :
            EntryData).raw = false := by
        rw [show ({ d with raw := some (regexReplaceLoop rep regexes (d.raw.getD "")) } :
            EntryData).raw = some (regexReplaceLoop rep regexes (d.raw.getD "")) from rfl, hf]
        rfl
      rw [secretPass_raw_false hfr]
      simp [hf]
    · have hie : (regexReplaceLoop rep regexes (d.raw.getD "")).isEmpty = false := by
        rw [Bool.eq_false_iff]
        intro hemp
        exact hf ((String.isEmpty_iff _).mp hemp)
      have hfr : holdsRawData
          ({ d with raw := some (regexReplaceLoop rep regexes (d.raw.getD "")) } :
            EntryData).raw = true := by
        simp [holdsRawData, hie]
      rw [secretPass_raw_true hsec hfr]
      by_cases hmem : sha (regexReplaceLoop rep regexes (d.raw.getD "")) ∈ secrets
      · simp [hmem, hsec, hf]
      · simp [hmem, hsec, hf]

/-- C6 (witness for the amended theorem): one pattern that deletes
everything, no secrets: the raw file ends as the fold result `""`. -/
theorem applyIgnoreRules_regex_fold_amended_witness :
    (applyIgnoreRules (fun (_ : Unit) _ => "") (fun _ _ => false) (fun _ => "D")
        [()] [] ⟨some "ab", []⟩).raw =
      some (if ([] : List String) ≠ [] ∧
                regexReplaceLoop (fun (_ : Unit) _ => "") [()] ((some "ab").getD "") ≠ "" ∧
                (fun _ => "D") (regexReplaceLoop (fun (_ : Unit) _ => "") [()]
                  ((some "ab").getD "")) ∈ ([] : List String)
            then "" else regexReplaceLoop (fun (_ : Unit) _ => "") [()]
                ((some "ab").getD "")) :=
  applyIgnoreRules_regex_fold_amended (fun (_ : Unit) _ => "") (fun _ _ => false)
    (fun _ => "D") [()] [] ⟨some "ab", []⟩ (by decide) (by decide)

/-- C7: for every retention string whose parsed count budget is
`max_entries = N > 0`, if `trim_history_entries` returns normally the index
afterwards has at most `N` elements and is a prefix of the original index:
only the oldest entries, at the back of the index, were removed, in order. -/
theorem trim_count_budget (stoldTimes : List Char → Nat → Option Nat)
    (g1 g2 : Char) (tokens : List (List Char)) (now : Int) (st st' : ClipState)
    (N : Nat) (hN : (parseRetention stoldTimes g1 g2 tokens).maxEntries = N)
    (hpos : 0 < N)
    (htrim : trimHistoryEntries stoldTimes g1 g2 tokens now st = some st') :
    st'.entries.length ≤ N ∧ st'.entries <+: st.entries := by
  obtain ⟨st1, st2, h1, h2, h3⟩ := trimHistoryEntries_some htrim
  rw [hN] at h3
  obtain ⟨hm1, hp1⟩ := sizePass_some h1
  obtain ⟨hm2, hp2⟩ := agePass_some h2
  obtain ⟨hm3, hp3, hlen⟩ := countPass_some h3
  exact ⟨hlen hpos, hp3.trans (hp2.trans hp1)⟩

/-- C7 (witness): scenario S5 of the spec — index `[3,2,1,0]`, retention
`"2"`: two entries remain and they are the two newest. -/
theorem trim_count_budget_witness :
    (ClipState.mk [⟨3, 1, 0⟩, ⟨2, 1, 0⟩] 0).entries.length ≤ 2 ∧
      (ClipState.mk [⟨3, 1, 0⟩, ⟨2, 1, 0⟩] 0).entries <+:
        (ClipState.mk [⟨3, 1, 0⟩, ⟨2, 1, 0⟩, ⟨1, 1, 0⟩, ⟨0, 1, 0⟩] 0).entries :=
  trim_count_budget stoldTimesInt 'x' 'x' [['2']] 0
    ⟨[⟨3, 1, 0⟩, ⟨2, 1, 0⟩, ⟨1, 1, 0⟩, ⟨0, 1, 0⟩], 0⟩
    ⟨[⟨3, 1, 0⟩, ⟨2, 1, 0⟩], 0⟩ 2 (by decide) (by decide) (by decide)

/-- C8: a whitespace-separated retention token with no recognised unit
suffix — a plain decimal integer, *including* a single-digit token such as
`"5"` — sets `max_entries` to that integer (part 1), a token on which every
numeric parse fails leaves all budgets unchanged (part 2), and the last
plain-integer token of the string decides `max_entries`, overriding earlier
ones (part 3).  For tokens shorter than two characters `lastTwoChars` reads
garbage bytes `g1 g2` from outside the token's buffer (undefined behaviour
in the source); the theorem quantifies over them, so it holds for every
resolution of that read — the garbage can only land in position 0, which is
inspected only by the two-letter size suffixes, and those also require
position 1 to be `'b'`, which a digit never is. -/
theorem retention_plain_integer_token (stoldTimes : List Char → Nat → Option Nat)
    (g1 g2 : Char) :
    (∀ b t, t ≠ [] → (∀ c ∈ t, isDigitChar c = true) → digitsVal t < u64 →
        parseToken stoldTimes g1 g2 b t = { b with maxEntries := digitsVal t }) ∧
      (∀ b t, stoulModel t = none → (∀ scale, stoldTimes t scale = none) →
        parseToken stoldTimes g1 g2 b t = b) ∧
      (∀ ts t, t ≠ [] → (∀ c ∈ t, isDigitChar c = true) → digitsVal t < u64 →
        (parseRetention stoldTimes g1 g2 (ts ++ [t])).maxEntries = digitsVal t) := by
  refine ⟨fun b t h1 h2 h3 => parseToken_digits stoldTimes g1 g2 b h1 h2 h3,
    fun b t h1 h2 => parseToken_skip stoldTimes g1 g2 b h1 h2,
    fun ts t h1 h2 h3 => ?_⟩
  unfold parseRetention
  rw [List.foldl_append]
  simp only [List.foldl_cons, List.foldl_nil]
  rw [parseToken_digits stoldTimes g1 g2 _ h1 h2 h3]

/-- C8 (witness): the single-digit token `"5"` sets `max_entries := 5`
whatever the out-of-buffer bytes are (here `'x'`, `'y'`). -/
theorem retention_plain_integer_token_witness :
    parseToken stoldTimesInt 'x' 'y' ⟨7, 8, 9⟩ ['5'] =
      { Budgets.mk 7 8 9 with maxEntries := digitsVal ['5'] } :=
  (retention_plain_integer_token stoldTimesInt 'x' 'y').1 ⟨7, 8, 9⟩ ['5']
    (by decide) (by decide) (by decide)

/-- C9 (counterexample): the front ordinal is an `unsigned long`, so
`front() + 1` wraps modulo 2^64.  At the reachable front 2^64 − 1 (an entry
directory named `18446744073709551615`, which `from_chars` parses), one call
to `make_new_entry` prepends ordinal 0, not `F + 1 = 2^64`: the proven
"front = F + k" of the claim fails there. -/
theorem makeNewEntry_wrap_cex :
    iterNewEntries 1 [18446744073709551615] 0 =
        some [0, 18446744073709551615] ∧
      (0 : Nat) ≠ 18446744073709551615 + 1 :=
  ⟨by decide, by decide⟩

/-- C9 (amended): starting from an index with front ordinal `F` and a valid
`this_entry`, and provided no wrap occurs along the run (`F + k < 2^64` —
new ordinals are `unsigned long` and are computed modulo 2^64), `k`
successive calls to `make_new_entry` all succeed, the front ordinal becomes
`F + k`, and every ordinal that was in the index is still present — new
entries are prepended with ordinal `front() + 1` and nothing is removed or
renumbered. -/
theorem makeNewEntry_monotonic (k F te : Nat) (rest : List Nat)
    (hte : te < (F :: rest).length) (hbound : F + k < u64) :
    iterNewEntries k (F :: rest) te ≠ none ∧
      ((iterNewEntries k (F :: rest) te).getD []).head? = some (F + k) ∧
      ∀ o ∈ F :: rest, o ∈ (iterNewEntries k (F :: rest) te).getD [] := by
  induction k generalizing F rest with
  | zero => exact ⟨by simp [iterNewEntries], by simp [iterNewEntries], fun o ho => by
      simpa [iterNewEntries] using ho⟩
  | succ k ih =>
    have hte2 : te < ((F + 1) :: F :: rest).length := by
      simp only [List.length_cons] at hte ⊢
      omega
    have hwrap : (F + 1) % u64 = F + 1 := by
      apply Nat.mod_eq_of_lt
      omega
    have hm : makeNewEntry (F :: rest) te = some ((F + 1) :: F :: rest) := by
      show (if te < (((F + 1) % u64) :: F :: rest).length
              then some (((F + 1) % u64) :: F :: rest)
            else none) = some ((F + 1) :: F :: rest)
      rw [hwrap, if_pos hte2]
    have hbound2 : (F + 1) + k < u64 := by omega
    obtain ⟨hnn, hhead, hmem⟩ := ih (F + 1) (F :: rest) hte2 hbound2
    have hstep : iterNewEntries (k + 1) (F :: rest) te =
        iterNewEntries k ((F + 1) :: F :: rest) te := by
      show (makeNewEntry (F :: rest) te).bind _ = _
      rw [hm]
      rfl
    rw [hstep]
    refine ⟨hnn, ?_, fun o ho => hmem o (List.mem_cons_of_mem _ ho)⟩
    rw [show F + 1 + k = F + (k + 1) from by omega] at hhead
    exact hhead

/-- C9 (witness for the amended theorem): two calls starting from index `[0]`
(with `this_entry` 0, no wrap since `0 + 2 < 2^64`): the run succeeds, the
front becomes `0 + 2`, and the old ordinal 0 is still present. -/
theorem makeNewEntry_monotonic_witness :
    iterNewEntries 2 [0] 0 ≠ none ∧
      ((iterNewEntries 2 [0] 0).getD []).head? = some (0 + 2) ∧
      (0 : Nat) ∈ (iterNewEntries 2 [0] 0).getD [] := by
  have h := makeNewEntry_monotonic 2 0 0 [] (by decide) (by decide)
  exact ⟨h.1, h.2.1, h.2.2 0 (by decide)⟩

/-- C10: opening a clipboard at entry ordinal position 0 never fails with
NoSuchEntry, whatever the data directory contains: the generated entry index
is never empty (it is `[0]` when nothing parses), so position 0 always
resolves and the constructor's `catch` branch is unreachable for
`this_entry = 0`. -/
theorem clipboardOpen_zero_never_fails (names : List (List Char)) :
    generatedEntryIndex names ≠ [] ∧
      clipboardOpenData names 0 = .ok ((generatedEntryIndex names).headD 0) := by
  refine ⟨generatedEntryIndex_ne_nil names, ?_⟩
  rcases h : generatedEntryIndex names with _ | ⟨a, l⟩
  · exact absurd h (generatedEntryIndex_ne_nil names)
  · unfold clipboardOpenData
    rw [h]
    rfl

end Cb
